import Mathlib

/-!
Verification of the per-port packet I/O engine of src/server/pcapport.cpp
(Ostinato): a shallow embedding of the PortTransmitter packet-list
construction API, the PortTransmitter replay loop and its per-packet
transmission primitive, and the PortMonitor counting loop, together with
theorems settling the specified properties.

Machine integers (long, int, qint64) are embedded as unbounded Int; the
claims under study do not hinge on wrap-around.  Wall-clock measurements
(getTimeStamp / udiffTimeStamp) are embedded as oracle inputs: every
elapsed-time measurement is a nonnegative number of microseconds supplied
by the environment, which is exactly the guarantee a monotonic clock
gives.  The stop flag, written concurrently by another thread, is likewise
an oracle read at each point where the code polls it.
-/

namespace PcapPort

/-- A struct timeval timestamp as stored in a pcap_pkthdr: seconds and
microseconds, embedded as mathematical integers. -/
structure PktTime where
  sec : Int
  usec : Int
deriving Repr, DecidableEq

/-- One record of the in-memory sendqueue: the pcap_pkthdr data that
matters to the engine (timestamp, caplen, wirelen).  The packet bytes
themselves never influence control flow and are not carried. -/
structure PacketRecord where
  ts : PktTime
  caplen : Nat
  wirelen : Nat
deriving Repr, DecidableEq

/-- A PacketSequence: one contiguous sendqueue with its timing and
repetition metadata (fields of class PacketSequence in pcapport.h). -/
structure PacketSequence where
  usecDelay : Int
  repeatCount : Int
  repeatSize : Int
  usecDuration : Int
  packets : Nat
  bytes : Nat
  records : List PacketRecord
  qlen : Nat
deriving Repr, DecidableEq

/-- Modelled from the spec: the PacketSequence constructor lives in
pcapport.h, which is not among the sources here.  It allocates an empty
sendqueue with zero counters, zero delay and duration, and repeatCount and
repeatSize both 1 — the replay algorithm reads repeatSize and repeatCount
as 1 for a sequence that does not start a repeat group. -/
def newPacketSequence : PacketSequence :=
  { usecDelay := 0, repeatCount := 1, repeatSize := 1, usecDuration := 0,
    packets := 0, bytes := 0, records := [], qlen := 0 }

/-- Modelled from the spec: byte size of one fixed-size record header
(sec, usec, caplen, wirelen) preceding the packet bytes in the sendqueue
buffer — sizeof(pcap_pkthdr) on a 64-bit Linux build. -/
def pcapPkthdrSize : Nat := 24

/-- Modelled from the spec: capacity of one sendqueue buffer.  The
PacketSequence constructor in pcapport.h allocates a size-bounded buffer;
the exact bound only determines when a sequence is full. -/
def sendQueueMaxLen : Nat := 1048576

/-- Modelled from the spec: PacketSequence::hasFreeSpace(size) from
pcapport.h — whether size more bytes fit in the size-bounded buffer. -/
def hasFreeSpace (s : PacketSequence) (n : Nat) : Bool :=
  s.qlen + n < sendQueueMaxLen

/-- Timestamp of the last packet appended to a sequence (the lastPacket_
pointer of pcapport.h); zero time when the sequence is empty. -/
def lastPacketTs (s : PacketSequence) : PktTime :=
  match s.records.getLast? with
  | none => { sec := 0, usec := 0 }
  | some p => p.ts

/-- Modelled from the spec: PacketSequence::appendPacket from pcapport.h —
extends usecDuration by the microsecond gap from the previous last packet
(sum of inter-packet gaps computed from embedded timestamps), bumps the
packet and byte counters, and queues the record; returns a negative result
when the record does not fit the size-bounded buffer. -/
def appendPacket (s : PacketSequence) (ts : PktTime) (len : Nat) :
    Int × PacketSequence :=
  let s1 : PacketSequence :=
    { s with
      usecDuration := s.usecDuration +
        (match s.records.getLast? with
         | none => 0
         | some p => (ts.sec - p.ts.sec) * 1000000 + (ts.usec - p.ts.usec)),
      packets := s.packets + 1,
      bytes := s.bytes + len }
  if s.qlen + pcapPkthdrSize + len ≤ sendQueueMaxLen then
    (0, { s1 with records := s1.records ++ [{ ts := ts, caplen := len, wirelen := len }],
                  qlen := s1.qlen + pcapPkthdrSize + len })
  else
    (-1, s1)

/-- Worker state enum: kNotStarted, kRunning, kFinished. -/
inductive TxState where
  | NotStarted
  | Running
  | Finished
deriving Repr, DecidableEq

/-- PortTransmitter packet-list construction state: the sequence list, the
current-sequence pointer (represented by its index in the list, since the
pointer always designates a list element), the repeat-group bookkeeping,
and the outer-loop configuration. -/
structure Transmitter where
  packetSequenceList : List PacketSequence
  currentIdx : Option Nat
  repeatSequenceStart : Int
  repeatSize : Int
  packetCount : Int
  returnToQIdx : Int
  loopDelay : Int
  state : TxState
deriving Repr, DecidableEq

/-- Transmitter state with an empty list and the sentinel values the
constructor and clearPacketList establish. -/
def initTransmitter : Transmitter :=
  { packetSequenceList := [], currentIdx := none, repeatSequenceStart := -1,
    repeatSize := 0, packetCount := 0, returnToQIdx := -1, loopDelay := 0,
    state := TxState.NotStarted }

/-- PortTransmitter::isRunning — true exactly in state kRunning. -/
def Transmitter.isRunning (t : Transmitter) : Bool :=
  t.state = TxState.Running

/-- Modelled from the spec: setPacketListLoopMode(enabled, returnIndex,
delay) is declared in pcapport.h, which is not among the sources here.
When enabled, replay returns to returnIndex after the list plays once,
observing the stored outer-loop delay between passes; when disabled the
return index is the negative sentinel that the replay loop in
pcapport.cpp tests with returnToQIdx_ >= 0. -/
def setPacketListLoopMode (t : Transmitter) (enabled : Bool)
    (returnIdx : Int) (delayUsec : Int) : Transmitter :=
  { t with returnToQIdx := if enabled then returnIdx else -1,
           loopDelay := delayUsec }

/-- PortTransmitter::clearPacketList — frees all sequences, clears the
current-sequence pointer and repeat bookkeeping, resets the outer loop. -/
def clearPacketList (t : Transmitter) : Transmitter :=
  setPacketListLoopMode
    { t with packetSequenceList := [], currentIdx := none,
             repeatSequenceStart := -1, repeatSize := 0, packetCount := 0,
             returnToQIdx := -1 }
    false 0 0

/-- PortTransmitter::loopNextPacketSet — opens a repeat group: allocates a
fresh sequence carrying the repeat count and the inter-iteration delay,
records the group start index and group size target, zeroes the group
packet counter, and appends the new sequence (making it current). -/
def loopNextPacketSet (t : Transmitter) (size repeats : Int)
    (delaySec delayNsec : Nat) : Transmitter :=
  let ns : PacketSequence :=
    { newPacketSequence with
      repeatCount := repeats,
      usecDelay := (delaySec : Int) * 1000000 + ((delayNsec / 1000 : Nat) : Int) }
  { t with currentIdx := some t.packetSequenceList.length,
           repeatSequenceStart := (t.packetSequenceList.length : Int),
           repeatSize := size,
           packetCount := 0,
           packetSequenceList := t.packetSequenceList ++ [ns] }

/-- The inter-iteration delay formula as the specification words state it:
size times 1e6 times the seconds part, plus the nanoseconds part divided
by 1000 (to be compared against what the code stores). -/
def specLoopDelayUsec (size : Int) (delaySec delayNsec : Nat) : Int :=
  size * 1000000 * (delaySec : Int) + ((delayNsec / 1000 : Nat) : Int)

/-- The condition of the first branch of appendToPacketList: no current
sequence, or the current sequence cannot fit one more record (the code
reserves room for two headers plus the packet). -/
def needsNewSeq (t : Transmitter) (len : Nat) : Bool :=
  match t.currentIdx with
  | none => true
  | some ci =>
      ¬ hasFreeSpace (t.packetSequenceList.getD ci newPacketSequence)
          (2 * pcapPkthdrSize + len)

/-- The sequence list after the current-sequence finalization write of
the alloc branch of appendToPacketList: when a current sequence exists,
its usecDelay becomes the microsecond gap from its last packet to the new
packet timestamp. -/
def apL1 (t : Transmitter) (ts : PktTime) : List PacketSequence :=
  match t.currentIdx with
  | none => t.packetSequenceList
  | some ci =>
      let cur := t.packetSequenceList.getD ci newPacketSequence
      let lp := lastPacketTs cur
      let usecs := (ts.sec - lp.sec) * 1000000 + (ts.usec - lp.usec)
      t.packetSequenceList.set ci { cur with usecDelay := usecs }

/-- First block of PortTransmitter::appendToPacketList (the branch at the
top of the function): when there is no current sequence or it cannot fit
one more record, finalize the current sequence (when there is one) by
storing on it the microsecond gap from its last packet to the new packet,
then allocate a fresh sequence, append it and make it current. -/
def apAllocStep (t : Transmitter) (ts : PktTime) (len : Nat) : Transmitter :=
  if needsNewSeq t len then
    { t with packetSequenceList := apL1 t ts ++ [newPacketSequence],
             currentIdx := some (apL1 t ts).length }
  else t

/-- Middle of PortTransmitter::appendToPacketList: write the record into
the current sequence via appendPacket; the first component is the
appendPacket result (negative on failure, reported through op). -/
def apWriteStep (t : Transmitter) (ts : PktTime) (len : Nat) :
    Int × Transmitter :=
  match t.currentIdx with
  | none => (0, t)
  | some ci =>
      let r := appendPacket (t.packetSequenceList.getD ci newPacketSequence) ts len
      (r.1, { t with packetSequenceList := t.packetSequenceList.set ci r.2 })

/-- Final block of PortTransmitter::appendToPacketList (lines 482 to 506):
bump packetCount; when a repeat group is open and the group packet target
is reached, finalize the group — if the current sequence is not the group
start, move the post-group delay from the start sequence to the current
sequence and set the start repeatSize to the list size minus the group
start — then zero the group-size target and close the current sequence. -/
def apFinalizeGroup (t : Transmitter) : Transmitter :=
  let t1 := { t with packetCount := t.packetCount + 1 }
  if t1.repeatSize > 0 ∧ t1.packetCount = t1.repeatSize then
    let startIdx := t1.repeatSequenceStart.toNat
    let t2 :=
      if t1.currentIdx ≠ some startIdx then
        match t1.currentIdx with
        | none => t1
        | some ci =>
            let start := t1.packetSequenceList.getD startIdx newPacketSequence
            let cur := t1.packetSequenceList.getD ci newPacketSequence
            let l1 := t1.packetSequenceList.set ci
                        { cur with usecDelay := start.usecDelay }
            let l2 := l1.set startIdx
                        { (l1.getD startIdx newPacketSequence) with
                          usecDelay := 0,
                          repeatSize := (t1.packetSequenceList.length : Int)
                                          - t1.repeatSequenceStart }
            { t1 with packetSequenceList := l2 }
      else t1
    { t2 with repeatSize := 0, currentIdx := none }
  else t1

/-- PortTransmitter::appendToPacketList(sec, nsec, packet, length) — the
nanoseconds are converted to microseconds on entry; returns op (false
exactly when appendPacket failed) and the updated state. -/
def appendToPacketList (t : Transmitter) (sec nsec : Nat) (len : Nat) :
    Bool × Transmitter :=
  let ts : PktTime := { sec := (sec : Int), usec := ((nsec / 1000 : Nat) : Int) }
  let t1 := apAllocStep t ts len
  let r := apWriteStep t1 ts len
  (decide (0 ≤ r.1), apFinalizeGroup r.2)

/-! ## PortMonitor -/

/-- Monitor direction (kDirectionRx / kDirectionTx). -/
inductive Direction where
  | Rx
  | Tx
deriving Repr, DecidableEq

/-- The four shared counters of AbstractPort::PortStats that the monitor
and transmitter touch. -/
structure PortStats where
  rxPkts : Nat
  rxBytes : Nat
  txPkts : Nat
  txBytes : Nat
deriving Repr, DecidableEq

/-- One outcome of pcap_next_ex in the PortMonitor loop: a successfully
read packet with its wire length (return 1), a timeout (return 0), or a
read error (returns -1 / -2, logged and not counted). -/
inductive MonResult where
  | pkt (wirelen : Nat)
  | timeout
  | errRead
  | errBreak
deriving Repr, DecidableEq

/-- Per-outcome counter update of PortMonitor::run: a successfully read
packet bumps the Rx counters when the direction is Rx, bumps the Tx
counters when the direction is Tx and the monitor is directional, and is
ignored when the direction is Tx on a non-directional monitor; timeouts
and read errors never touch the counters. -/
def monitorStep (dir : Direction) (isDirectional : Bool) (s : PortStats) :
    MonResult → PortStats
  | MonResult.pkt len =>
      match dir with
      | Direction.Rx =>
          { s with rxPkts := s.rxPkts + 1, rxBytes := s.rxBytes + len }
      | Direction.Tx =>
          if isDirectional then
            { s with txPkts := s.txPkts + 1, txBytes := s.txBytes + len }
          else s
  | MonResult.timeout => s
  | MonResult.errRead => s
  | MonResult.errBreak => s

/-- The PortMonitor::run loop over the outcomes read until stop: a fold of
the per-outcome update over the shared counters. -/
def monitorRun (dir : Direction) (isDirectional : Bool)
    (rs : List MonResult) (s : PortStats) : PortStats :=
  rs.foldl (monitorStep dir isDirectional) s

/-- Number of successfully read packets in a list of monitor outcomes. -/
def monPktCount : List MonResult → Nat
  | [] => 0
  | MonResult.pkt _ :: r => monPktCount r + 1
  | _ :: r => monPktCount r

/-- Total wire length of the successfully read packets in a list of
monitor outcomes. -/
def monPktBytes : List MonResult → Nat
  | [] => 0
  | MonResult.pkt len :: r => monPktBytes r + len
  | _ :: r => monPktBytes r

/-! ## PortTransmitter replay

The replay loop of PortTransmitter::run and its transmission primitive
sendQueueTransmit, embedded as pure functions over an event trace.  The
embedding follows the non-Win32 build of run (every transmission goes
through sendQueueTransmit); the Win32 fast-path branch is embedded
separately as winXmitOne. -/

/-- Observable events of a replay: transmission of the sequence at a list
index begins (one per sendQueueTransmit call), a packet is handed to
pcap_sendpacket (with its length and the outcome the library reports,
which the code ignores), or the selected delay function is invoked for a
positive number of microseconds. -/
inductive TxEvent where
  | xmitSeq (i : Nat)
  | sendPkt (len : Nat) (ok : Bool)
  | delay (usecs : Int)
deriving Repr, DecidableEq

/-- State threaded through the replay: the overhead accumulator, the Tx
counters the transmitter owns, whether every Q_ASSERT(overHead <= 0)
evaluated so far held, the event trace, the number of sendQueueTransmit
calls made (used to index the oracle), the last observed or assigned
value of the stop flag, the worker state enum, and whether the bounding
fuel ran out before the code path ended. -/
structure RunSt where
  overHead : Int
  txPkts : Nat
  txBytes : Nat
  assertsOK : Bool
  events : List TxEvent
  calls : Nat
  stop : Bool
  state : TxState
  fuelOut : Bool
deriving Repr, DecidableEq

/-- Environment oracle for one sendQueueTransmit call: for the n-th packet
of the call, the elapsed microseconds the overhead bookkeeping measures
(nonnegative, as a monotonic clock guarantees), the outcome
pcap_sendpacket reports, and the value of the concurrently written stop
flag at the post-send check. -/
structure SeqOracle where
  elapsed : Nat → Nat
  sendOk : Nat → Bool
  stopAt : Nat → Bool

/-- Initial replay state: overhead zero, counters zero, no events, no
asserts failed, stop clear, state kNotStarted. -/
def runInit : RunSt :=
  { overHead := 0, txPkts := 0, txBytes := 0, assertsOK := true,
    events := [], calls := 0, stop := false, state := TxState.NotStarted,
    fuelOut := false }

/-- Sync-mode prelude of the sendQueueTransmit loop body for one record:
measure the elapsed time since ovrStart, subtract it from the overhead
accumulator, evaluate Q_ASSERT(overHead <= 0), and wait for the target
inter-packet gap adjusted by overhead when positive (zeroing overhead),
otherwise carry the nonpositive residue as the new overhead. -/
def sqtSyncStep (o : SeqOracle) (n : Nat) (tsSec tsUsec : Int)
    (p : PacketRecord) (st : RunSt) : RunSt :=
  let usec0 := (p.ts.sec - tsSec) * 1000000 + (p.ts.usec - tsUsec)
  let oh := st.overHead - (o.elapsed n : Int)
  let ok := st.assertsOK && decide (oh ≤ 0)
  let usec1 := usec0 + oh
  if usec1 > 0 then
    { st with overHead := 0, assertsOK := ok,
              events := st.events ++ [TxEvent.delay usec1] }
  else
    { st with overHead := usec1, assertsOK := ok }

/-- Unconditional tail of the loop body: pcap_sendpacket (whose outcome
the code does not examine) and the counter bumps, then the stop check. -/
def sqtSendStep (o : SeqOracle) (n : Nat) (p : PacketRecord) (st : RunSt) :
    RunSt :=
  { st with
    txPkts := st.txPkts + 1,
    txBytes := st.txBytes + p.caplen,
    events := st.events ++ [TxEvent.sendPkt p.caplen (o.sendOk n)],
    stop := o.stopAt n }

/-- Loop of PortTransmitter::sendQueueTransmit over the remaining
records: n is the packet position within the call, tsSec/tsUsec the ts
variable (timestamp of the previous record, initially of the first
record).  In sync mode each record first runs the overhead bookkeeping,
then the packet is sent and counted unconditionally; a stop flag observed
set at the post-send check makes the call return -2. -/
def sqtGo (sync : Bool) (o : SeqOracle) :
    List PacketRecord → Nat → Int → Int → RunSt → Int × RunSt
  | [], _, _, _, st => (0, st)
  | p :: rest, n, tsSec, tsUsec, st =>
      let st1 := if sync then sqtSyncStep o n tsSec tsUsec p st else st
      let tsSec2 := if sync then p.ts.sec else tsSec
      let tsUsec2 := if sync then p.ts.usec else tsUsec
      let st2 := sqtSendStep o n p st1
      if o.stopAt n then (-2, st2)
      else sqtGo sync o rest (n + 1) tsSec2 tsUsec2 st2

/-- PortTransmitter::sendQueueTransmit — transmits one sendqueue with
inter-packet accuracy; ts starts at the first record timestamp; an empty
queue returns success immediately. -/
def sendQueueTransmit (sync : Bool) (o : SeqOracle)
    (pkts : List PacketRecord) (st : RunSt) : Int × RunSt :=
  match pkts with
  | [] => (0, st)
  | p :: _ => sqtGo sync o pkts 0 p.ts.sec p.ts.usec st

/-- One transmission in the replay loop (non-Win32 path): record the
sequence index being transmitted and call sendQueueTransmit on its
sendqueue with the oracle for this call. -/
def xmitOne (o : Nat → SeqOracle) (i : Nat) (seq : PacketSequence)
    (st : RunSt) : Int × RunSt :=
  let st0 := { st with events := st.events ++ [TxEvent.xmitSeq i],
                       calls := st.calls + 1 }
  sendQueueTransmit true (o st.calls) seq.records st0

/-- Post-transmission delay step of the replay loop: wait for the
usecDelay of the just transmitted sequence adjusted by the overhead
accumulator; a positive wait is performed and zeroes overhead, otherwise
the (nonpositive) residue becomes the new overhead. -/
def afterDelay (seq : PacketSequence) (st : RunSt) : RunSt :=
  let usecs := seq.usecDelay + st.overHead
  if usecs > 0 then
    { st with overHead := 0, events := st.events ++ [TxEvent.delay usecs] }
  else
    { st with overHead := usecs }

/-- Inner k-loop of one repeat iteration: transmit the sequences at
indices i + k for the cnt remaining values of k, observing each delay; a
negative transmission result aborts, clearing the stop flag as the error
branch of run does. -/
def runK (seqs : List PacketSequence) (o : Nat → SeqOracle) (i : Nat) :
    Nat → Nat → RunSt → Bool × RunSt
  | _, 0, st => (true, st)
  | k, cnt + 1, st =>
      let seq := seqs.getD (i + k) newPacketSequence
      let r := xmitOne o (i + k) seq st
      if 0 ≤ r.1 then runK seqs o i (k + 1) cnt (afterDelay seq r.2)
      else (false, { r.2 with stop := false })

/-- Outer j-loop of one repeat group: run the k-loop rptCnt times. -/
def runJ (seqs : List PacketSequence) (o : Nat → SeqOracle)
    (i rptSz : Nat) : Nat → RunSt → Bool × RunSt
  | 0, st => (true, st)
  | j + 1, st =>
      let r := runK seqs o i 0 rptSz st
      if r.1 then runJ seqs o i rptSz j r.2 else r

/-- Control flow of PortTransmitter::run from the while loop on: atBody
true means control is at the _restart label (the loop body, also the
target of the return-to-queue goto), false means at the while condition.
The body reads repeatSize and repeatCount of the sequence at i, runs the
repeat group, and advances i by repeatSize; a transmission error jumps to
_exit with state kFinished.  When the while condition fails, a
nonnegative returnToQIdx performs the outer-loop delay (overhead
adjusted) and jumps back to the body at that index, otherwise the run
finishes.  Fuel bounds the (possibly infinite) iteration. -/
def runFrom (seqs : List PacketSequence) (q d : Int) (o : Nat → SeqOracle) :
    Nat → Bool → Nat → RunSt → RunSt
  | 0, _, _, st => { st with fuelOut := true }
  | fuel + 1, true, i, st =>
      let sq := seqs.getD i newPacketSequence
      let rptSz := sq.repeatSize.toNat
      let rptCnt := sq.repeatCount.toNat
      let r := runJ seqs o i rptSz rptCnt st
      if r.1 then runFrom seqs q d o fuel false (i + rptSz) r.2
      else { r.2 with state := TxState.Finished }
  | fuel + 1, false, i, st =>
      if i < seqs.length then runFrom seqs q d o fuel true i st
      else if 0 ≤ q then
        let usecs := d + st.overHead
        let st1 :=
          if usecs > 0 then
            { st with overHead := 0, events := st.events ++ [TxEvent.delay usecs] }
          else { st with overHead := usecs }
        runFrom seqs q d o fuel true q.toNat st1
      else { st with state := TxState.Finished }

/-- PortTransmitter::run (non-Win32 path): an empty sequence list goes
straight to _exit (state kFinished) without ever entering kRunning;
otherwise the state becomes kRunning and the while loop starts at index
0.  The Bool reports whether kRunning was ever entered. -/
def runTx (fuel : Nat) (seqs : List PacketSequence) (q d : Int)
    (o : Nat → SeqOracle) : RunSt × Bool :=
  if seqs.length ≤ 0 then ({ runInit with state := TxState.Finished }, false)
  else
    (runFrom seqs q d o fuel false 0 { runInit with state := TxState.Running },
     true)

/-- Whether a replay state counts as running for isRunning. -/
def stIsRunning (st : RunSt) : Bool :=
  st.state = TxState.Running

/-- The Win32 fast-path branch of the replay loop (one transmission): when
the sequence duration is at most one second, the whole sendqueue is
handed to pcap_sendqueue_transmit (outcome retO from the environment); on
success the counters are bumped by the whole sequence, the measured
wall-clock duration of the call is subtracted from the sequence duration
and added to overhead, and Q_ASSERT(overHead <= 0) is evaluated; a set
stop flag turns the result into -2.  Durations above one second fall back
to the per-packet sendQueueTransmit. -/
def winXmitOne (seq : PacketSequence) (o : SeqOracle) (retO : Int)
    (st : RunSt) : Int × RunSt :=
  if seq.usecDuration ≤ 1000000 then
    let st1 :=
      if 0 ≤ retO then
        let oh := st.overHead + (seq.usecDuration - (o.elapsed 0 : Int))
        { st with txPkts := st.txPkts + seq.packets,
                  txBytes := st.txBytes + seq.bytes,
                  overHead := oh,
                  assertsOK := st.assertsOK && decide (oh ≤ 0) }
      else st
    (if o.stopAt 0 then -2 else retO, st1)
  else
    sendQueueTransmit true o seq.records st

/-! ## Trace observations -/

/-- Whether an event marks the start of a sequence transmission. -/
def isXmit : TxEvent → Bool
  | TxEvent.xmitSeq _ => true
  | _ => false

/-- The events the post-transmission delay step emits for an adjusted wait
of u microseconds: one delay event when positive, nothing otherwise. -/
def delayEvents (u : Int) : List TxEvent :=
  if u > 0 then [TxEvent.delay u] else []

/-- Indices of the sequence transmissions recorded in a trace, in order. -/
def xmitIdxs : List TxEvent → List Nat
  | [] => []
  | TxEvent.xmitSeq n :: r => n :: xmitIdxs r
  | TxEvent.sendPkt _ _ :: r => xmitIdxs r
  | TxEvent.delay _ :: r => xmitIdxs r

/-- Number of packets handed to pcap_sendpacket in a trace, whatever the
outcome the library reported. -/
def sendAttempts : List TxEvent → Nat
  | [] => 0
  | TxEvent.sendPkt _ _ :: r => sendAttempts r + 1
  | TxEvent.xmitSeq _ :: r => sendAttempts r
  | TxEvent.delay _ :: r => sendAttempts r

/-- Total length of the packets handed to pcap_sendpacket in a trace. -/
def sendAttemptBytes : List TxEvent → Nat
  | [] => 0
  | TxEvent.sendPkt len _ :: r => sendAttemptBytes r + len
  | TxEvent.xmitSeq _ :: r => sendAttemptBytes r
  | TxEvent.delay _ :: r => sendAttemptBytes r

/-- Number of packets in a trace whose pcap_sendpacket call succeeded. -/
def successfulSends : List TxEvent → Nat
  | [] => 0
  | TxEvent.sendPkt _ true :: r => successfulSends r + 1
  | TxEvent.sendPkt _ false :: r => successfulSends r
  | TxEvent.xmitSeq _ :: r => successfulSends r
  | TxEvent.delay _ :: r => successfulSends r

/-- Total length of the packets in a trace whose pcap_sendpacket call
succeeded. -/
def successfulSendBytes : List TxEvent → Nat
  | [] => 0
  | TxEvent.sendPkt len true :: r => successfulSendBytes r + len
  | TxEvent.sendPkt _ false :: r => successfulSendBytes r
  | TxEvent.xmitSeq _ :: r => successfulSendBytes r
  | TxEvent.delay _ :: r => successfulSendBytes r

/-- Shape of the trace of the inner k-loop of the replay: for k, k+1, ...
over cnt steps, a transmission marker for sequence i + k, the packet-level
events of that call (never a transmission marker), and then the delay step
for the usecDelay of the transmitted sequence adjusted by the overhead the
call left behind. -/
inductive KTrace (seqs : List PacketSequence) (i : Nat) :
    Nat → Nat → List TxEvent → Prop
  | nil (k : Nat) : KTrace seqs i k 0 []
  | step (k cnt : Nat) (mid rest : List TxEvent) (oh : Int)
      (hmid : ∀ e ∈ mid, isXmit e = false)
      (hrest : KTrace seqs i (k + 1) cnt rest) :
      KTrace seqs i k (cnt + 1)
        (TxEvent.xmitSeq (i + k) ::
          (mid ++ (delayEvents
            ((seqs.getD (i + k) newPacketSequence).usecDelay + oh) ++ rest)))

/-- Shape of the trace of one repeat group: the k-loop trace repeated
once per remaining repeat iteration. -/
inductive JTrace (seqs : List PacketSequence) (i rptSz : Nat) :
    Nat → List TxEvent → Prop
  | nil : JTrace seqs i rptSz 0 []
  | step (j : Nat) (first rest : List TxEvent)
      (h1 : KTrace seqs i 0 rptSz first)
      (h2 : JTrace seqs i rptSz j rest) :
      JTrace seqs i rptSz (j + 1) (first ++ rest)

/-! ## Concrete inputs used by witnesses and counterexamples -/

/-- Oracle with zero measured elapsed time, successful sends and a never
set stop flag. -/
def oTriv : Nat → SeqOracle :=
  fun _ => { elapsed := fun _ => 0, sendOk := fun _ => true,
             stopAt := fun _ => false }

/-- Oracle whose stop flag reads true at every check. -/
def oStop : Nat → SeqOracle :=
  fun _ => { elapsed := fun _ => 0, sendOk := fun _ => true,
             stopAt := fun _ => true }

/-- Oracle under which every pcap_sendpacket call fails. -/
def oFail : SeqOracle :=
  { elapsed := fun _ => 0, sendOk := fun _ => false, stopAt := fun _ => false }

/-- A nine byte packet record at time zero. -/
def pktR : PacketRecord :=
  { ts := { sec := 0, usec := 0 }, caplen := 9, wirelen := 9 }

/-- Group start sequence of the concrete replay example: two sequences
repeated twice, delay five microseconds. -/
def s0 : PacketSequence :=
  { newPacketSequence with repeatSize := 2, repeatCount := 2, usecDelay := 5 }

/-- Second sequence of the concrete replay example. -/
def s1 : PacketSequence :=
  { newPacketSequence with usecDelay := 7 }

/-- A sequence holding one nine byte packet. -/
def sP : PacketSequence :=
  { newPacketSequence with records := [pktR] }

/-- Construction state with an open group of two sequences, one packet
appended, the current sequence being the second of the group: the next
append reaches the group packet target and finalizes the group. -/
def tC5 : Transmitter :=
  { packetSequenceList :=
      [{ newPacketSequence with
          usecDelay := 777,
          records := [{ ts := { sec := 0, usec := 0 }, caplen := 5, wirelen := 5 }],
          qlen := 29, packets := 1, bytes := 5 },
       newPacketSequence],
    currentIdx := some 1, repeatSequenceStart := 0, repeatSize := 2,
    packetCount := 1, returnToQIdx := -1, loopDelay := 0,
    state := TxState.NotStarted }

/-- Construction state whose current sequence is full: one sequence
holding one packet with a nearly exhausted buffer, so the next append
cannot fit and must finalize it and open a new sequence. -/
def tC4 : Transmitter :=
  { packetSequenceList :=
      [{ newPacketSequence with
          records := [{ ts := { sec := 1, usec := 500 }, caplen := 5, wirelen := 5 }],
          qlen := 1048570, packets := 1, bytes := 5 }],
    currentIdx := some 0, repeatSequenceStart := -1, repeatSize := 0,
    packetCount := 1, returnToQIdx := -1, loopDelay := 0,
    state := TxState.NotStarted }

/-- Sequence of duration 100 microseconds for the fast-path examples. -/
def sW : PacketSequence :=
  { newPacketSequence with usecDuration := 100, packets := 2, bytes := 20 }

/-- Fast-path oracle measuring zero elapsed microseconds: the kernel
batch send returned faster than the prescribed sequence duration. -/
def oW : SeqOracle :=
  { elapsed := fun _ => 0, sendOk := fun _ => true, stopAt := fun _ => false }

/-- Fast-path oracle measuring exactly the prescribed 100 microseconds. -/
def oW100 : SeqOracle :=
  { elapsed := fun _ => 100, sendOk := fun _ => true, stopAt := fun _ => false }

/-- Replay state at the top of the while loop (kRunning, overhead zero). -/
def stR : RunSt := { runInit with state := TxState.Running }

/-- Result state of the concrete two-sequence group replay (both
iterations complete): four transmissions, each followed by its delay. -/
def stC1 : RunSt :=
  { runInit with
    state := TxState.Running, calls := 4,
    events := [TxEvent.xmitSeq 0, TxEvent.delay 5, TxEvent.xmitSeq 1,
               TxEvent.delay 7, TxEvent.xmitSeq 0, TxEvent.delay 5,
               TxEvent.xmitSeq 1, TxEvent.delay 7] }

/-- Result state of the concrete errored replay: one packet sent, then
the stop flag made sendQueueTransmit return -2 and the error branch
cleared the flag. -/
def stC7 : RunSt :=
  { runInit with
    state := TxState.Running, calls := 1, txPkts := 1, txBytes := 9,
    events := [TxEvent.xmitSeq 0, TxEvent.sendPkt 9 true] }

/-! # Theorems -/

/-! ## PortMonitor counting (helper lemmas and C9) -/

theorem monitorRun_rx (isDir : Bool) :
    ∀ (rs : List MonResult) (s : PortStats),
      monitorRun Direction.Rx isDir rs s =
        { s with rxPkts := s.rxPkts + monPktCount rs,
                 rxBytes := s.rxBytes + monPktBytes rs } := by
  intro rs
  induction rs with
  | nil =>
      intro s
      obtain ⟨a, b, c, d⟩ := s
      simp [monitorRun, monPktCount, monPktBytes]
  | cons p rs ih =>
      intro s
      obtain ⟨a, b, c, d⟩ := s
      cases p <;>
        simp only [monitorRun, List.foldl_cons, monitorStep] at * <;>
        rw [ih] <;>
        simp [monPktCount, monPktBytes, PortStats.mk.injEq] <;>
        omega

theorem monitorRun_tx_directional :
    ∀ (rs : List MonResult) (s : PortStats),
      monitorRun Direction.Tx true rs s =
        { s with txPkts := s.txPkts + monPktCount rs,
                 txBytes := s.txBytes + monPktBytes rs } := by
  intro rs
  induction rs with
  | nil =>
      intro s
      obtain ⟨a, b, c, d⟩ := s
      simp [monitorRun, monPktCount, monPktBytes]
  | cons p rs ih =>
      intro s
      obtain ⟨a, b, c, d⟩ := s
      cases p <;>
        simp only [monitorRun, List.foldl_cons, monitorStep] at * <;>
        rw [ih] <;>
        simp [monPktCount, monPktBytes, PortStats.mk.injEq] <;>
        omega

theorem monitorRun_tx_nondirectional :
    ∀ (rs : List MonResult) (s : PortStats),
      monitorRun Direction.Tx false rs s = s := by
  intro rs
  induction rs with
  | nil => intro s; rfl
  | cons p rs ih =>
      intro s
      cases p <;> simp only [monitorRun, List.foldl_cons, monitorStep] at * <;>
        exact ih s

/-- C9: in the PortMonitor loop, every successfully read packet bumps
rxPkts by one and rxBytes by its wire length when the direction is Rx
(whether or not the monitor is directional), bumps txPkts and txBytes
when the direction is Tx on a directional monitor, and changes no
counter when the direction is Tx on a non-directional monitor; timeouts
and read errors never change the counters. -/
theorem monitor_direction_counting :
    (∀ (isDir : Bool) (rs : List MonResult) (s : PortStats),
        monitorRun Direction.Rx isDir rs s =
          { s with rxPkts := s.rxPkts + monPktCount rs,
                   rxBytes := s.rxBytes + monPktBytes rs }) ∧
    (∀ (rs : List MonResult) (s : PortStats),
        monitorRun Direction.Tx true rs s =
          { s with txPkts := s.txPkts + monPktCount rs,
                   txBytes := s.txBytes + monPktBytes rs }) ∧
    (∀ (rs : List MonResult) (s : PortStats),
        monitorRun Direction.Tx false rs s = s) :=
  ⟨fun isDir => monitorRun_rx isDir, monitorRun_tx_directional,
   monitorRun_tx_nondirectional⟩

/-! ## clearPacketList (C8) -/

/-- C8 (amended): after clearPacketList (legal only when the transmitter
is not running), the sequence list is empty, the current-sequence pointer
is cleared, the group packet counter and the repeat-group size target are
zero, the repeat-group start index and the return-to-queue index hold the
negative none sentinel -1 (not zero), and the outer loop is disabled with
zero loop delay. -/
theorem clearPacketList_resets (t : Transmitter) (h : t.isRunning = false) :
    (clearPacketList t).packetSequenceList = [] ∧
    (clearPacketList t).currentIdx = none ∧
    (clearPacketList t).packetCount = 0 ∧
    (clearPacketList t).repeatSize = 0 ∧
    (clearPacketList t).repeatSequenceStart = -1 ∧
    (clearPacketList t).returnToQIdx = -1 ∧
    (clearPacketList t).loopDelay = 0 :=
  ⟨rfl, rfl, rfl, rfl, rfl, rfl, rfl⟩

theorem clearPacketList_resets_witness :
    initTransmitter.isRunning = false ∧
    ((clearPacketList initTransmitter).packetSequenceList = [] ∧
     (clearPacketList initTransmitter).currentIdx = none ∧
     (clearPacketList initTransmitter).packetCount = 0 ∧
     (clearPacketList initTransmitter).repeatSize = 0 ∧
     (clearPacketList initTransmitter).repeatSequenceStart = -1 ∧
     (clearPacketList initTransmitter).returnToQIdx = -1 ∧
     (clearPacketList initTransmitter).loopDelay = 0) :=
  ⟨by decide, clearPacketList_resets initTransmitter (by decide)⟩

/-- C8 counterexample: after clearPacketList the repeat-group start index
and the return-to-queue index are -1, not zero as the claim states. -/
theorem clearPacketList_indices_not_zero :
    (clearPacketList initTransmitter).repeatSequenceStart = -1 ∧
    (clearPacketList initTransmitter).returnToQIdx = -1 ∧
    ¬ ((clearPacketList initTransmitter).repeatSequenceStart = 0) ∧
    ¬ ((clearPacketList initTransmitter).returnToQIdx = 0) := by
  decide

/-! ## loopNextPacketSet (C6) -/

/-- C6 (amended): loopNextPacketSet appends a fresh empty sequence, makes
it current and the start of a repeat group of size sequences to be
repeated repeats times, resets the group packet counter to zero, and
stores on the new sequence an inter-iteration delay of
delaySec*1e6 + delayNsec/1000 microseconds (the group size does not enter
the delay). -/
theorem loopNextPacketSet_opens_group (t : Transmitter) (size repeats : Int)
    (delaySec delayNsec : Nat) :
    (loopNextPacketSet t size repeats delaySec delayNsec).packetSequenceList
      = t.packetSequenceList ++
          [{ newPacketSequence with
              repeatCount := repeats,
              usecDelay := (delaySec : Int) * 1000000
                             + ((delayNsec / 1000 : Nat) : Int) }] ∧
    (loopNextPacketSet t size repeats delaySec delayNsec).packetSequenceList.length
      = t.packetSequenceList.length + 1 ∧
    ((loopNextPacketSet t size repeats delaySec delayNsec).packetSequenceList.getD
        t.packetSequenceList.length newPacketSequence).records = [] ∧
    ((loopNextPacketSet t size repeats delaySec delayNsec).packetSequenceList.getD
        t.packetSequenceList.length newPacketSequence).packets = 0 ∧
    ((loopNextPacketSet t size repeats delaySec delayNsec).packetSequenceList.getD
        t.packetSequenceList.length newPacketSequence).repeatCount = repeats ∧
    ((loopNextPacketSet t size repeats delaySec delayNsec).packetSequenceList.getD
        t.packetSequenceList.length newPacketSequence).usecDelay
      = (delaySec : Int) * 1000000 + ((delayNsec / 1000 : Nat) : Int) ∧
    (loopNextPacketSet t size repeats delaySec delayNsec).currentIdx
      = some t.packetSequenceList.length ∧
    (loopNextPacketSet t size repeats delaySec delayNsec).repeatSequenceStart
      = (t.packetSequenceList.length : Int) ∧
    (loopNextPacketSet t size repeats delaySec delayNsec).repeatSize = size ∧
    (loopNextPacketSet t size repeats delaySec delayNsec).packetCount = 0 := by
  refine ⟨rfl, by simp [loopNextPacketSet], ?_, ?_, ?_, ?_, rfl, rfl, rfl, rfl⟩ <;>
    simp [loopNextPacketSet, newPacketSequence, List.getD_eq_getElem?_getD,
      List.getElem?_concat_length]

/-- C6 counterexample: for loopNextPacketSet(size=2, repeats=3,
delaySec=1, delayNsec=0) the code stores 1e6 microseconds on the new
sequence, while the claimed formula size*1e6*delaySec + delayNsec/1000
gives 2e6; the stored delay does not involve the group size. -/
theorem loopNextPacketSet_delay_counterexample :
    ((loopNextPacketSet initTransmitter 2 3 1 0).packetSequenceList.getD 0
        newPacketSequence).usecDelay = 1000000 ∧
    specLoopDelayUsec 2 1 0 = 2000000 ∧
    ¬ (((loopNextPacketSet initTransmitter 2 3 1 0).packetSequenceList.getD 0
          newPacketSequence).usecDelay = specLoopDelayUsec 2 1 0) := by
  decide

/-! ## Empty-list run (C10) -/

/-- C10: a run over an empty packet-sequence list goes straight from
kNotStarted to kFinished without ever entering kRunning, transmits no
sequence and observes no delay (the trace is empty), so a start over an
empty list observes isRunning false. -/
theorem run_empty_list_finishes (fuel : Nat) (q d : Int)
    (o : Nat → SeqOracle) :
    runTx fuel [] q d o = ({ runInit with state := TxState.Finished }, false) ∧
    (runTx fuel [] q d o).1.events = [] ∧
    (runTx fuel [] q d o).1.state = TxState.Finished ∧
    (runTx fuel [] q d o).2 = false ∧
    stIsRunning (runTx fuel [] q d o).1 = false :=
  ⟨rfl, rfl, rfl, rfl, rfl⟩

/-! ## Overhead accumulator invariants (toward C2) -/

theorem sqtSyncStep_overhead (o : SeqOracle) (n : Nat) (a b : Int)
    (p : PacketRecord) (st : RunSt) (h1 : st.overHead ≤ 0)
    (h2 : st.assertsOK = true) :
    (sqtSyncStep o n a b p st).overHead ≤ 0 ∧
    (sqtSyncStep o n a b p st).assertsOK = true := by
  have hn : (0 : Int) ≤ (o.elapsed n : Int) := Int.natCast_nonneg _
  have hoh : st.overHead - (o.elapsed n : Int) ≤ 0 := by omega
  simp only [sqtSyncStep]
  split_ifs with h
  · simp [h2, hoh]
  · refine ⟨?_, by simp [h2, hoh]⟩
    simp only []
    omega

theorem sqtGo_overhead (sync : Bool) (o : SeqOracle) :
    ∀ (pkts : List PacketRecord) (n : Nat) (a b : Int) (st : RunSt),
      st.overHead ≤ 0 → st.assertsOK = true →
      (sqtGo sync o pkts n a b st).2.overHead ≤ 0 ∧
      (sqtGo sync o pkts n a b st).2.assertsOK = true := by
  intro pkts
  induction pkts with
  | nil => intro n a b st h1 h2; exact ⟨h1, h2⟩
  | cons p rest ih =>
      intro n a b st h1 h2
      have hst1 : (if sync then sqtSyncStep o n a b p st else st).overHead ≤ 0 ∧
          (if sync then sqtSyncStep o n a b p st else st).assertsOK = true := by
        split
        · exact sqtSyncStep_overhead o n a b p st h1 h2
        · exact ⟨h1, h2⟩
      simp only [sqtGo]
      split
      · exact ⟨hst1.1, hst1.2⟩
      · exact ih _ _ _ _ hst1.1 hst1.2

theorem sendQueueTransmit_overhead (sync : Bool) (o : SeqOracle)
    (pkts : List PacketRecord) (st : RunSt) (h1 : st.overHead ≤ 0)
    (h2 : st.assertsOK = true) :
    (sendQueueTransmit sync o pkts st).2.overHead ≤ 0 ∧
    (sendQueueTransmit sync o pkts st).2.assertsOK = true := by
  cases pkts with
  | nil => exact ⟨h1, h2⟩
  | cons p rest => exact sqtGo_overhead sync o (p :: rest) 0 _ _ st h1 h2

theorem xmitOne_overhead (o : Nat → SeqOracle) (i : Nat)
    (seq : PacketSequence) (st : RunSt) (h1 : st.overHead ≤ 0)
    (h2 : st.assertsOK = true) :
    (xmitOne o i seq st).2.overHead ≤ 0 ∧
    (xmitOne o i seq st).2.assertsOK = true :=
  sendQueueTransmit_overhead true (o st.calls) seq.records
    { st with events := st.events ++ [TxEvent.xmitSeq i],
              calls := st.calls + 1 } h1 h2

theorem afterDelay_overhead (seq : PacketSequence) (st : RunSt) :
    (afterDelay seq st).overHead ≤ 0 ∧
    (afterDelay seq st).assertsOK = st.assertsOK := by
  simp only [afterDelay]
  split_ifs with h
  · simp
  · refine ⟨?_, rfl⟩
    simp only []
    omega

theorem runK_overhead (seqs : List PacketSequence) (o : Nat → SeqOracle)
    (i : Nat) :
    ∀ (cnt k : Nat) (st : RunSt), st.overHead ≤ 0 → st.assertsOK = true →
      (runK seqs o i k cnt st).2.overHead ≤ 0 ∧
      (runK seqs o i k cnt st).2.assertsOK = true := by
  intro cnt
  induction cnt with
  | zero => intro k st h1 h2; exact ⟨h1, h2⟩
  | succ cnt ih =>
      intro k st h1 h2
      have hx := xmitOne_overhead o (i + k)
        (seqs.getD (i + k) newPacketSequence) st h1 h2
      have ha := afterDelay_overhead (seqs.getD (i + k) newPacketSequence)
        (xmitOne o (i + k) (seqs.getD (i + k) newPacketSequence) st).2
      simp only [runK]
      split
      · exact ih _ _ ha.1 (ha.2.trans hx.2)
      · exact ⟨hx.1, hx.2⟩

theorem runJ_overhead (seqs : List PacketSequence) (o : Nat → SeqOracle)
    (i rptSz : Nat) :
    ∀ (rptCnt : Nat) (st : RunSt), st.overHead ≤ 0 → st.assertsOK = true →
      (runJ seqs o i rptSz rptCnt st).2.overHead ≤ 0 ∧
      (runJ seqs o i rptSz rptCnt st).2.assertsOK = true := by
  intro rptCnt
  induction rptCnt with
  | zero => intro st h1 h2; exact ⟨h1, h2⟩
  | succ j ih =>
      intro st h1 h2
      have hk := runK_overhead seqs o i rptSz 0 st h1 h2
      simp only [runJ]
      split
      · exact ih _ hk.1 hk.2
      · exact hk

theorem runFrom_overhead (seqs : List PacketSequence) (q d : Int)
    (o : Nat → SeqOracle) :
    ∀ (fuel : Nat) (ab : Bool) (i : Nat) (st : RunSt),
      st.overHead ≤ 0 → st.assertsOK = true →
      (runFrom seqs q d o fuel ab i st).overHead ≤ 0 ∧
      (runFrom seqs q d o fuel ab i st).assertsOK = true := by
  intro fuel
  induction fuel with
  | zero => intro ab i st h1 h2; exact ⟨h1, h2⟩
  | succ fuel ih =>
      intro ab i st h1 h2
      cases ab with
      | true =>
          have hj := runJ_overhead seqs o i
            ((seqs.getD i newPacketSequence).repeatSize.toNat)
            ((seqs.getD i newPacketSequence).repeatCount.toNat) st h1 h2
          simp only [runFrom]
          split
          · exact ih false _ _ hj.1 hj.2
          · exact ⟨hj.1, hj.2⟩
      | false =>
          simp only [runFrom]
          split_ifs with hlt hq hpos
          · exact ih true i st h1 h2
          · exact ih true _ _ (le_refl 0) h2
          · refine ih true _ _ ?_ h2
            show d + st.overHead ≤ 0
            omega
          · exact ⟨h1, h2⟩

theorem runTx_overhead (fuel : Nat) (seqs : List PacketSequence)
    (q d : Int) (o : Nat → SeqOracle) :
    (runTx fuel seqs q d o).1.overHead ≤ 0 ∧
    (runTx fuel seqs q d o).1.assertsOK = true := by
  simp only [runTx]
  split
  · exact ⟨le_refl 0, rfl⟩
  · exact runFrom_overhead seqs q d o fuel false 0
      { runInit with state := TxState.Running } (le_refl 0) rfl

theorem winXmitOne_overhead (seq : PacketSequence) (o : SeqOracle)
    (retO : Int) (st : RunSt) (h1 : st.overHead ≤ 0)
    (h2 : st.assertsOK = true)
    (h3 : seq.usecDuration ≤ (o.elapsed 0 : Int)) :
    (winXmitOne seq o retO st).2.overHead ≤ 0 ∧
    (winXmitOne seq o retO st).2.assertsOK = true := by
  by_cases hdur : seq.usecDuration ≤ 1000000
  · by_cases hret : 0 ≤ retO
    · have hle : st.overHead + (seq.usecDuration - (o.elapsed 0 : Int)) ≤ 0 := by
        omega
      simp only [winXmitOne, if_pos hdur, if_pos hret]
      exact ⟨by simpa using hle, by simp [h2, hle]⟩
    · simp only [winXmitOne, if_pos hdur, if_neg hret]
      exact ⟨h1, h2⟩
  · simp only [winXmitOne, if_neg hdur]
    exact sendQueueTransmit_overhead true o seq.records st h1 h2

/-- C2 (amended): the overhead accumulator never exceeds zero at the
assertion site of sendQueueTransmit — for every run (non-Win32 path,
overhead starting at zero) every evaluation of Q_ASSERT(overHead <= 0)
holds and the final overhead is nonpositive; the fast-path assertion
after overhead += usecDuration - measuredDuration additionally requires
that the measured wall-clock duration of the synchronized kernel batch
send be at least the sequence duration — under that premise it, too,
always holds. -/
theorem overhead_asserts_valid :
    (∀ (fuel : Nat) (seqs : List PacketSequence) (q d : Int)
        (o : Nat → SeqOracle),
        (runTx fuel seqs q d o).1.assertsOK = true ∧
        (runTx fuel seqs q d o).1.overHead ≤ 0) ∧
    (∀ (seq : PacketSequence) (o : SeqOracle) (retO : Int) (st : RunSt),
        st.overHead ≤ 0 → st.assertsOK = true →
        seq.usecDuration ≤ (o.elapsed 0 : Int) →
        (winXmitOne seq o retO st).2.assertsOK = true ∧
        (winXmitOne seq o retO st).2.overHead ≤ 0) :=
  ⟨fun fuel seqs q d o =>
     ⟨(runTx_overhead fuel seqs q d o).2, (runTx_overhead fuel seqs q d o).1⟩,
   fun seq o retO st h1 h2 h3 =>
     ⟨(winXmitOne_overhead seq o retO st h1 h2 h3).2,
      (winXmitOne_overhead seq o retO st h1 h2 h3).1⟩⟩

theorem overhead_asserts_valid_witness :
    runInit.overHead ≤ 0 ∧ runInit.assertsOK = true ∧
    sW.usecDuration ≤ (oW100.elapsed 0 : Int) ∧
    ((winXmitOne sW oW100 0 runInit).2.assertsOK = true ∧
     (winXmitOne sW oW100 0 runInit).2.overHead ≤ 0) :=
  ⟨by decide, by decide, by decide,
   overhead_asserts_valid.2 sW oW100 0 runInit (by decide) (by decide)
     (by decide)⟩

/-- C2 counterexample: in the Win32 fast path, a synchronized kernel
batch send measured at 0 microseconds for a sequence of usecDuration 100
drives the overhead accumulator to +100, so the asserted predicate
overHead <= 0 evaluates false — the fast-path assertion site is not valid
for all executions, even with overhead starting at zero. -/
theorem overhead_fastpath_assert_fails :
    runInit.overHead = 0 ∧ runInit.assertsOK = true ∧
    (winXmitOne sW oW 0 runInit).2.overHead = 100 ∧
    (winXmitOne sW oW 0 runInit).2.assertsOK = false := by
  decide

/-! ## Trace bookkeeping lemmas -/

theorem sendAttempts_append :
    ∀ (a b : List TxEvent),
      sendAttempts (a ++ b) = sendAttempts a + sendAttempts b := by
  intro a b
  induction a with
  | nil => simp [sendAttempts]
  | cons e r ih =>
      cases e <;>
        simp only [List.cons_append, List.append_eq, sendAttempts, ih] <;>
        try omega

theorem sendAttemptBytes_append :
    ∀ (a b : List TxEvent),
      sendAttemptBytes (a ++ b) = sendAttemptBytes a + sendAttemptBytes b := by
  intro a b
  induction a with
  | nil => simp [sendAttemptBytes]
  | cons e r ih =>
      cases e <;>
        simp only [List.cons_append, List.append_eq, sendAttemptBytes, ih] <;>
        try omega

theorem xmitIdxs_append :
    ∀ (a b : List TxEvent), xmitIdxs (a ++ b) = xmitIdxs a ++ xmitIdxs b := by
  intro a b
  induction a with
  | nil => simp [xmitIdxs]
  | cons e r ih =>
      cases e <;>
        simp only [List.cons_append, List.append_eq, xmitIdxs, ih]

theorem xmitIdxs_eq_nil :
    ∀ (l : List TxEvent), (∀ e ∈ l, isXmit e = false) → xmitIdxs l = [] := by
  intro l
  induction l with
  | nil => intro _; rfl
  | cons e r ih =>
      intro h
      cases e with
      | xmitSeq n =>
          exact absurd (h _ (List.mem_cons_self _ _)) (by simp [isXmit])
      | sendPkt len ok =>
          simpa [xmitIdxs] using ih fun x hx => h x (List.mem_cons_of_mem _ hx)
      | delay u =>
          simpa [xmitIdxs] using ih fun x hx => h x (List.mem_cons_of_mem _ hx)

theorem sqtSyncStep_trace (o : SeqOracle) (n : Nat) (a b : Int)
    (p : PacketRecord) (st : RunSt) :
    ∃ Δ, (sqtSyncStep o n a b p st).events = st.events ++ Δ ∧
      (∀ e ∈ Δ, isXmit e = false) ∧
      sendAttempts Δ = 0 ∧ sendAttemptBytes Δ = 0 ∧
      (sqtSyncStep o n a b p st).txPkts = st.txPkts ∧
      (sqtSyncStep o n a b p st).txBytes = st.txBytes := by
  simp only [sqtSyncStep]
  split_ifs with h
  · exact ⟨[TxEvent.delay _], rfl, by simp [isXmit], rfl, rfl, rfl, rfl⟩
  · exact ⟨[], by simp, by simp, rfl, rfl, rfl, rfl⟩

theorem sqtGo_trace (sync : Bool) (o : SeqOracle) :
    ∀ (pkts : List PacketRecord) (n : Nat) (a b : Int) (st : RunSt),
      ∃ Δ, (sqtGo sync o pkts n a b st).2.events = st.events ++ Δ ∧
        (∀ e ∈ Δ, isXmit e = false) ∧
        (sqtGo sync o pkts n a b st).2.txPkts = st.txPkts + sendAttempts Δ ∧
        (sqtGo sync o pkts n a b st).2.txBytes = st.txBytes + sendAttemptBytes Δ := by
  intro pkts
  induction pkts with
  | nil =>
      intro n a b st
      exact ⟨[], by simp [sqtGo], by simp, by simp [sqtGo, sendAttempts],
             by simp [sqtGo, sendAttemptBytes]⟩
  | cons p rest ih =>
      intro n a b st
      obtain ⟨Δ1, he1, hx1, hz1, hzb1, hp1, hb1⟩ :
          ∃ Δ1, (if sync then sqtSyncStep o n a b p st else st).events
                  = st.events ++ Δ1 ∧
            (∀ e ∈ Δ1, isXmit e = false) ∧
            sendAttempts Δ1 = 0 ∧ sendAttemptBytes Δ1 = 0 ∧
            (if sync then sqtSyncStep o n a b p st else st).txPkts = st.txPkts ∧
            (if sync then sqtSyncStep o n a b p st else st).txBytes = st.txBytes := by
        split
        · exact sqtSyncStep_trace o n a b p st
        · exact ⟨[], by simp, by simp, rfl, rfl, rfl, rfl⟩
      simp only [sqtGo]
      split
      · refine ⟨Δ1 ++ [TxEvent.sendPkt p.caplen (o.sendOk n)], ?_, ?_, ?_, ?_⟩
        · show (if sync then sqtSyncStep o n a b p st else st).events ++ _ = _
          rw [he1, List.append_assoc]
        · intro e he
          rcases List.mem_append.mp he with h | h
          · exact hx1 e h
          · simp only [List.mem_singleton] at h
            subst h
            rfl
        · show (if sync then sqtSyncStep o n a b p st else st).txPkts + 1 = _
          rw [hp1, sendAttempts_append, hz1]
          simp [sendAttempts]
        · show (if sync then sqtSyncStep o n a b p st else st).txBytes + p.caplen = _
          rw [hb1, sendAttemptBytes_append, hzb1]
          simp [sendAttemptBytes]
      · obtain ⟨Δ2, he2, hx2, hp2, hb2⟩ :=
          ih (n + 1) (if sync then p.ts.sec else a) (if sync then p.ts.usec else b)
            (sqtSendStep o n p (if sync then sqtSyncStep o n a b p st else st))
        refine ⟨Δ1 ++ [TxEvent.sendPkt p.caplen (o.sendOk n)] ++ Δ2, ?_, ?_, ?_, ?_⟩
        · rw [he2]
          show (if sync then sqtSyncStep o n a b p st else st).events ++ _ ++ _ = _
          rw [he1]
          simp [List.append_assoc]
        · intro e he
          rcases List.mem_append.mp he with h | h
          · rcases List.mem_append.mp h with h2 | h2
            · exact hx1 e h2
            · simp only [List.mem_singleton] at h2
              subst h2
              rfl
          · exact hx2 e h
        · rw [hp2]
          show (if sync then sqtSyncStep o n a b p st else st).txPkts + 1 + _ = _
          rw [hp1, sendAttempts_append, sendAttempts_append, hz1]
          simp [sendAttempts]
          omega
        · rw [hb2]
          show (if sync then sqtSyncStep o n a b p st else st).txBytes + p.caplen + _ = _
          rw [hb1, sendAttemptBytes_append, sendAttemptBytes_append, hzb1]
          simp [sendAttemptBytes]
          omega

theorem sendQueueTransmit_trace (sync : Bool) (o : SeqOracle)
    (pkts : List PacketRecord) (st : RunSt) :
    ∃ Δ, (sendQueueTransmit sync o pkts st).2.events = st.events ++ Δ ∧
      (∀ e ∈ Δ, isXmit e = false) ∧
      (sendQueueTransmit sync o pkts st).2.txPkts = st.txPkts + sendAttempts Δ ∧
      (sendQueueTransmit sync o pkts st).2.txBytes
        = st.txBytes + sendAttemptBytes Δ := by
  cases pkts with
  | nil =>
      exact ⟨[], by simp [sendQueueTransmit], by simp,
             by simp [sendQueueTransmit, sendAttempts],
             by simp [sendQueueTransmit, sendAttemptBytes]⟩
  | cons p rest => exact sqtGo_trace sync o (p :: rest) 0 _ _ st

/-! ## Per-packet counting (C3) -/

/-- C3 (amended): the per-packet counter increments in sendQueueTransmit
occur for every packet handed to pcap_sendpacket, whatever outcome the
library reports (the code does not examine the pcap_sendpacket result):
txPkts grows by the number of attempted sends and txBytes by the sum of
their lengths, for every oracle (in particular for oracles under which
sends fail). -/
theorem sendQueueTransmit_counts_attempts (sync : Bool) (o : SeqOracle)
    (pkts : List PacketRecord) (st : RunSt) :
    ∃ Δ, (sendQueueTransmit sync o pkts st).2.events = st.events ++ Δ ∧
      (sendQueueTransmit sync o pkts st).2.txPkts = st.txPkts + sendAttempts Δ ∧
      (sendQueueTransmit sync o pkts st).2.txBytes
        = st.txBytes + sendAttemptBytes Δ := by
  obtain ⟨Δ, h1, _, h3, h4⟩ := sendQueueTransmit_trace sync o pkts st
  exact ⟨Δ, h1, h3, h4⟩

/-- C3 counterexample: one packet whose pcap_sendpacket call fails is
still counted — txPkts becomes 1 and txBytes 9 although the trace holds
no successful send, so txPkts does not equal the number of successful
sends and txBytes does not equal the sum of their wire lengths. -/
theorem sendQueueTransmit_counts_failed_send :
    (sendQueueTransmit true oFail [pktR] runInit).2.txPkts = 1 ∧
    (sendQueueTransmit true oFail [pktR] runInit).2.txBytes = 9 ∧
    (sendQueueTransmit true oFail [pktR] runInit).2.events
      = [TxEvent.sendPkt 9 false] ∧
    successfulSends (sendQueueTransmit true oFail [pktR] runInit).2.events = 0 ∧
    successfulSendBytes (sendQueueTransmit true oFail [pktR] runInit).2.events = 0 ∧
    ¬ ((sendQueueTransmit true oFail [pktR] runInit).2.txPkts
        = successfulSends (sendQueueTransmit true oFail [pktR] runInit).2.events) ∧
    ¬ ((sendQueueTransmit true oFail [pktR] runInit).2.txBytes
        = successfulSendBytes (sendQueueTransmit true oFail [pktR] runInit).2.events) := by
  decide

/-! ## Replay group traces (toward C1 and C7) -/

theorem afterDelay_events (seq : PacketSequence) (st : RunSt) :
    (afterDelay seq st).events
      = st.events ++ delayEvents (seq.usecDelay + st.overHead) := by
  simp only [afterDelay, delayEvents]
  split_ifs with h
  · rfl
  · simp

theorem xmitIdxs_delayEvents (u : Int) : xmitIdxs (delayEvents u) = [] := by
  simp only [delayEvents]
  split_ifs with h <;> rfl

theorem xmitOne_trace (o : Nat → SeqOracle) (i : Nat) (seq : PacketSequence)
    (st : RunSt) :
    ∃ mid, (xmitOne o i seq st).2.events
        = st.events ++ (TxEvent.xmitSeq i :: mid) ∧
      (∀ e ∈ mid, isXmit e = false) := by
  obtain ⟨Δ, he, hx, _, _⟩ := sendQueueTransmit_trace true (o st.calls) seq.records
    { st with events := st.events ++ [TxEvent.xmitSeq i], calls := st.calls + 1 }
  refine ⟨Δ, ?_, hx⟩
  show (sendQueueTransmit true (o st.calls) seq.records
    { st with events := st.events ++ [TxEvent.xmitSeq i],
              calls := st.calls + 1 }).2.events = _
  rw [he]
  simp

theorem runK_trace (seqs : List PacketSequence) (o : Nat → SeqOracle)
    (i : Nat) :
    ∀ (cnt k : Nat) (st st2 : RunSt),
      runK seqs o i k cnt st = (true, st2) →
      ∃ Δ, st2.events = st.events ++ Δ ∧ KTrace seqs i k cnt Δ := by
  intro cnt
  induction cnt with
  | zero =>
      intro k st st2 h
      have hst : st = st2 := by simpa [runK, Prod.ext_iff] using h
      subst hst
      exact ⟨[], by simp, KTrace.nil k⟩
  | succ cnt ih =>
      intro k st st2 h
      simp only [runK] at h
      by_cases hr :
          0 ≤ (xmitOne o (i + k) (seqs.getD (i + k) newPacketSequence) st).1
      · rw [if_pos hr] at h
        obtain ⟨Δ2, he2, hk2⟩ := ih (k + 1) _ st2 h
        obtain ⟨mid, hm, hxm⟩ :=
          xmitOne_trace o (i + k) (seqs.getD (i + k) newPacketSequence) st
        refine ⟨TxEvent.xmitSeq (i + k) ::
            (mid ++ (delayEvents
              ((seqs.getD (i + k) newPacketSequence).usecDelay
                + (xmitOne o (i + k) (seqs.getD (i + k) newPacketSequence) st).2.overHead)
              ++ Δ2)), ?_, ?_⟩
        · rw [he2, afterDelay_events, hm]
          simp [List.append_assoc]
        · exact KTrace.step k cnt mid Δ2 _ hxm hk2
      · rw [if_neg hr] at h
        simp [Prod.ext_iff] at h

theorem runJ_trace (seqs : List PacketSequence) (o : Nat → SeqOracle)
    (i rptSz : Nat) :
    ∀ (rptCnt : Nat) (st st2 : RunSt),
      runJ seqs o i rptSz rptCnt st = (true, st2) →
      ∃ Δ, st2.events = st.events ++ Δ ∧ JTrace seqs i rptSz rptCnt Δ := by
  intro rptCnt
  induction rptCnt with
  | zero =>
      intro st st2 h
      have hst : st = st2 := by simpa [runJ, Prod.ext_iff] using h
      subst hst
      exact ⟨[], by simp, JTrace.nil⟩
  | succ j ih =>
      intro st st2 h
      simp only [runJ] at h
      by_cases hk : (runK seqs o i 0 rptSz st).1 = true
      · rw [if_pos hk] at h
        have hkeq : runK seqs o i 0 rptSz st
            = (true, (runK seqs o i 0 rptSz st).2) := by
          rw [← hk]
        obtain ⟨Δ1, he1, hK⟩ := runK_trace seqs o i rptSz 0 st _ hkeq
        obtain ⟨Δ2, he2, hJ⟩ := ih _ st2 h
        exact ⟨Δ1 ++ Δ2, by rw [he2, he1, List.append_assoc],
               JTrace.step j Δ1 Δ2 hK hJ⟩
      · rw [if_neg hk] at h
        have := congrArg Prod.fst h
        simp at this
        exact absurd this hk

theorem listJoin_cons {α : Type} (xs : List α) (L : List (List α)) :
    List.join (xs :: L) = xs ++ List.join L := by
  simp [List.join]

theorem KTrace_xmitIdxs (seqs : List PacketSequence) (i : Nat)
    {k cnt : Nat} {Δ : List TxEvent} (h : KTrace seqs i k cnt Δ) :
    xmitIdxs Δ = (List.range cnt).map (fun t => i + k + t) := by
  induction h with
  | nil k => simp [xmitIdxs]
  | step k cnt mid rest oh hmid hrest ih =>
      show xmitIdxs (TxEvent.xmitSeq (i + k) :: _) = _
      rw [xmitIdxs, xmitIdxs_append, xmitIdxs_eq_nil mid hmid, xmitIdxs_append,
        xmitIdxs_delayEvents, ih, List.range_succ_eq_map]
      have harg : ((fun t => i + k + t) ∘ Nat.succ) = fun t => i + (k + 1) + t := by
        funext t
        simp [Function.comp]
        omega
      simp only [List.nil_append, List.map_cons, List.map_map, harg]
      simp

theorem JTrace_xmitIdxs (seqs : List PacketSequence) (i rptSz : Nat)
    {cnt : Nat} {Δ : List TxEvent} (h : JTrace seqs i rptSz cnt Δ) :
    xmitIdxs Δ
      = List.join (List.replicate cnt
          ((List.range rptSz).map (fun k => i + k))) := by
  induction h with
  | nil => simp [xmitIdxs]
  | step j first rest h1 h2 ih =>
      rw [xmitIdxs_append, KTrace_xmitIdxs seqs i h1, ih, List.replicate_succ,
        listJoin_cons]
      rfl

theorem length_join_replicate {α : Type} :
    ∀ (c : Nat) (xs : List α),
      (List.join (List.replicate c xs)).length = c * xs.length := by
  intro c xs
  induction c with
  | zero => simp
  | succ c ih =>
      rw [List.replicate_succ, listJoin_cons, List.length_append, ih,
        Nat.succ_mul]
      omega

/-! ## Repeat-group replay (C1) -/

/-- C1: for a repeat group starting at index i of the sequence list — its
repeatSize and repeatCount read from the sequence at i, both defaulting
to 1 on a non-group-start sequence — a step of the replay loop transmits
seq at index i+k for every j below repeatCount and k below repeatSize
(the trace holds exactly repeatSize*repeatCount transmission markers, in
that j-major order), observes after each transmitted sequence its own
usecDelay adjusted by the accumulated overhead (the delay step right
after the transmission events of that sequence), and then continues the
while loop at i + repeatSize. -/
theorem replay_group_step (fuel i : Nat) (seqs : List PacketSequence)
    (q d : Int) (o : Nat → SeqOracle) (st st2 : RunSt)
    (hi : i < seqs.length)
    (hsz : 1 ≤ (seqs.getD i newPacketSequence).repeatSize.toNat)
    (hok : runJ seqs o i (seqs.getD i newPacketSequence).repeatSize.toNat
             (seqs.getD i newPacketSequence).repeatCount.toNat st
           = (true, st2)) :
    runFrom seqs q d o (fuel + 2) false i st
      = runFrom seqs q d o fuel false
          (i + (seqs.getD i newPacketSequence).repeatSize.toNat) st2 ∧
    ∃ Δ, st2.events = st.events ++ Δ ∧
      JTrace seqs i (seqs.getD i newPacketSequence).repeatSize.toNat
        (seqs.getD i newPacketSequence).repeatCount.toNat Δ ∧
      xmitIdxs Δ
        = List.join (List.replicate
            (seqs.getD i newPacketSequence).repeatCount.toNat
            ((List.range (seqs.getD i newPacketSequence).repeatSize.toNat).map
              (fun k => i + k))) ∧
      (xmitIdxs Δ).length
        = (seqs.getD i newPacketSequence).repeatSize.toNat
            * (seqs.getD i newPacketSequence).repeatCount.toNat := by
  constructor
  · show runFrom seqs q d o (fuel + 1 + 1) false i st = _
    rw [runFrom, if_pos hi, runFrom, hok]
    rfl
  · obtain ⟨Δ, he, hj⟩ := runJ_trace seqs o i _ _ st st2 hok
    refine ⟨Δ, he, hj, JTrace_xmitIdxs seqs i _ hj, ?_⟩
    rw [JTrace_xmitIdxs seqs i _ hj, length_join_replicate]
    simp [Nat.mul_comm]

/-! ## Send-error abort (C7) -/

theorem runK_false_stop (seqs : List PacketSequence) (o : Nat → SeqOracle)
    (i : Nat) :
    ∀ (cnt k : Nat) (st st2 : RunSt),
      runK seqs o i k cnt st = (false, st2) → st2.stop = false := by
  intro cnt
  induction cnt with
  | zero =>
      intro k st st2 h
      simp [runK, Prod.ext_iff] at h
  | succ cnt ih =>
      intro k st st2 h
      simp only [runK] at h
      by_cases hr :
          0 ≤ (xmitOne o (i + k) (seqs.getD (i + k) newPacketSequence) st).1
      · rw [if_pos hr] at h
        exact ih (k + 1) _ st2 h
      · rw [if_neg hr] at h
        have h2 := congrArg Prod.snd h
        simp only [] at h2
        rw [← h2]

theorem runJ_false_stop (seqs : List PacketSequence) (o : Nat → SeqOracle)
    (i rptSz : Nat) :
    ∀ (rptCnt : Nat) (st st2 : RunSt),
      runJ seqs o i rptSz rptCnt st = (false, st2) → st2.stop = false := by
  intro rptCnt
  induction rptCnt with
  | zero =>
      intro st st2 h
      simp [runJ, Prod.ext_iff] at h
  | succ j ih =>
      intro st st2 h
      simp only [runJ] at h
      by_cases hk : (runK seqs o i 0 rptSz st).1 = true
      · rw [if_pos hk] at h
        exact ih _ st2 h
      · rw [if_neg hk] at h
        exact runK_false_stop seqs o i rptSz 0 st st2 h

/-- C7: when a sequence transmission in the replay loop returns a
negative result, the transmitter takes the error branch: the remaining
replay is abandoned (the run result is exactly the errored state with
state set to kFinished — no further transmission, delay or outer
return-to-queue pass occurs), the stop flag is cleared, and no error is
surfaced other than through the state, which isRunning reports as not
running. -/
theorem replay_error_aborts (fuel i : Nat) (seqs : List PacketSequence)
    (q d : Int) (o : Nat → SeqOracle) (st st2 : RunSt)
    (hi : i < seqs.length)
    (herr : runJ seqs o i (seqs.getD i newPacketSequence).repeatSize.toNat
              (seqs.getD i newPacketSequence).repeatCount.toNat st
            = (false, st2)) :
    runFrom seqs q d o (fuel + 2) false i st
      = { st2 with state := TxState.Finished } ∧
    st2.stop = false ∧
    ({ st2 with state := TxState.Finished } : RunSt).state = TxState.Finished ∧
    stIsRunning { st2 with state := TxState.Finished } = false ∧
    ({ st2 with state := TxState.Finished } : RunSt).events = st2.events := by
  refine ⟨?_, runJ_false_stop seqs o i _ _ st st2 herr, rfl, rfl, rfl⟩
  show runFrom seqs q d o (fuel + 1 + 1) false i st = _
  rw [runFrom, if_pos hi, runFrom, herr]
  rfl

/-! ## appendToPacketList sequence rollover (C4) -/

theorem getD_set_self (l : List PacketSequence) (i : Nat)
    (a : PacketSequence) (h : i < l.length) :
    (l.set i a).getD i newPacketSequence = a := by
  simp [List.getD_eq_getElem?_getD, List.getElem?_set_self h]

theorem getD_set_ne (l : List PacketSequence) (i j : Nat)
    (a : PacketSequence) (h : i ≠ j) :
    (l.set i a).getD j newPacketSequence = l.getD j newPacketSequence := by
  simp [List.getD_eq_getElem?_getD, List.getElem?_set_ne h]

theorem apL1_length (t : Transmitter) (ts : PktTime) :
    (apL1 t ts).length = t.packetSequenceList.length := by
  cases h : t.currentIdx <;> simp [apL1, h]

theorem apL1_getD_current (t : Transmitter) (ts : PktTime) (ci : Nat)
    (hci : t.currentIdx = some ci) (hlt : ci < t.packetSequenceList.length) :
    (apL1 t ts).getD ci newPacketSequence
      = { t.packetSequenceList.getD ci newPacketSequence with
          usecDelay :=
            (ts.sec - (lastPacketTs (t.packetSequenceList.getD ci
                newPacketSequence)).sec) * 1000000
            + (ts.usec - (lastPacketTs (t.packetSequenceList.getD ci
                newPacketSequence)).usec) } := by
  simp [apL1, hci, List.getD_eq_getElem?_getD, List.getElem?_set_self hlt]

/-- C4: whenever appendToPacketList finds no current sequence or a
current sequence that cannot fit one more record (and the call does not
also close a repeat group), the list grows by exactly one fresh sequence,
the record is written into that new sequence (which has become current,
and stays current), and the previously current sequence — when there was
one — ends with its usecDelay set to the microsecond gap between the new
packet timestamp and its own last packet timestamp. -/
theorem append_rollover_finalizes (t : Transmitter) (sec nsec len : Nat)
    (hNew : needsNewSeq t len = true)
    (hNoFin : ¬ (t.repeatSize > 0 ∧ t.packetCount + 1 = t.repeatSize))
    (hFit : pcapPkthdrSize + len ≤ sendQueueMaxLen)
    (hCur : ∀ ci, t.currentIdx = some ci → ci < t.packetSequenceList.length) :
    (appendToPacketList t sec nsec len).2.packetSequenceList.length
      = t.packetSequenceList.length + 1 ∧
    (appendToPacketList t sec nsec len).2.currentIdx
      = some t.packetSequenceList.length ∧
    ((appendToPacketList t sec nsec len).2.packetSequenceList.getD
        t.packetSequenceList.length newPacketSequence).records
      = [{ ts := { sec := (sec : Int), usec := ((nsec / 1000 : Nat) : Int) },
           caplen := len, wirelen := len }] ∧
    (∀ ci, t.currentIdx = some ci →
       ((appendToPacketList t sec nsec len).2.packetSequenceList.getD ci
           newPacketSequence).usecDelay
         = ((sec : Int)
              - (lastPacketTs (t.packetSequenceList.getD ci
                  newPacketSequence)).sec) * 1000000
           + (((nsec / 1000 : Nat) : Int)
              - (lastPacketTs (t.packetSequenceList.getD ci
                  newPacketSequence)).usec)) ∧
    (appendToPacketList t sec nsec len).2.packetCount = t.packetCount + 1 := by
  have hts : True := trivial
  set ts : PktTime :=
    { sec := (sec : Int), usec := ((nsec / 1000 : Nat) : Int) }
  set n := t.packetSequenceList.length
  have hl1 : (apL1 t ts).length = n := apL1_length t ts
  -- the alloc branch fires
  have halloc : apAllocStep t ts len
      = { t with packetSequenceList := apL1 t ts ++ [newPacketSequence],
                 currentIdx := some (apL1 t ts).length } := by
    simp [apAllocStep, hNew]
  -- the fresh sequence receives the record
  have happ : appendPacket newPacketSequence ts len
      = (0, { newPacketSequence with
              packets := 1, bytes := len,
              records := [{ ts := ts, caplen := len, wirelen := len }],
              qlen := pcapPkthdrSize + len }) := by
    simp [appendPacket, newPacketSequence]
    omega
  have hgetnew : (apL1 t ts ++ [newPacketSequence]).getD (apL1 t ts).length
      newPacketSequence = newPacketSequence := by
    simp [List.getD_eq_getElem?_getD, List.getElem?_concat_length]
  have hwrite : (apWriteStep (apAllocStep t ts len) ts len).2
      = { t with
          packetSequenceList :=
            (apL1 t ts ++ [newPacketSequence]).set (apL1 t ts).length
              { newPacketSequence with
                packets := 1, bytes := len,
                records := [{ ts := ts, caplen := len, wirelen := len }],
                qlen := pcapPkthdrSize + len },
          currentIdx := some (apL1 t ts).length } := by
    rw [halloc]
    simp [apWriteStep, hgetnew, happ]
  have hfin : (appendToPacketList t sec nsec len).2
      = { t with
          packetSequenceList :=
            (apL1 t ts ++ [newPacketSequence]).set (apL1 t ts).length
              { newPacketSequence with
                packets := 1, bytes := len,
                records := [{ ts := ts, caplen := len, wirelen := len }],
                qlen := pcapPkthdrSize + len },
          currentIdx := some (apL1 t ts).length,
          packetCount := t.packetCount + 1 } := by
    show (apFinalizeGroup (apWriteStep (apAllocStep t ts len) ts len).2) = _
    rw [hwrite]
    simp only [apFinalizeGroup]
    rw [if_neg (by simpa using hNoFin)]
  rw [hfin]
  refine ⟨by simp [hl1], by simp [hl1], ?_, ?_, rfl⟩
  · have hn : n < ((apL1 t ts) ++ [newPacketSequence]).length := by
      simp [hl1]
    simp only [List.getD_eq_getElem?_getD]
    rw [show (apL1 t ts).length = n from hl1, List.getElem?_set_self hn]
    rfl
  · intro ci hci
    have hlt : ci < n := hCur ci hci
    have hne : (apL1 t ts).length ≠ ci := by omega
    simp only [List.getD_eq_getElem?_getD]
    rw [List.getElem?_set_ne hne, List.getElem?_append_left (by omega),
      ← List.getD_eq_getElem?_getD _ _ newPacketSequence,
      apL1_getD_current t ts ci hci hlt]
    simp [List.getD_eq_getElem?_getD]

theorem append_rollover_finalizes_witness :
    needsNewSeq tC4 10 = true ∧
    ¬ (tC4.repeatSize > 0 ∧ tC4.packetCount + 1 = tC4.repeatSize) ∧
    pcapPkthdrSize + 10 ≤ sendQueueMaxLen ∧
    ((appendToPacketList tC4 2 0 10).2.packetSequenceList.length
       = tC4.packetSequenceList.length + 1 ∧
     (appendToPacketList tC4 2 0 10).2.currentIdx
       = some tC4.packetSequenceList.length ∧
     ((appendToPacketList tC4 2 0 10).2.packetSequenceList.getD
         tC4.packetSequenceList.length newPacketSequence).records
       = [{ ts := { sec := ((2 : Nat) : Int), usec := (((0 / 1000 : Nat)) : Int) },
            caplen := 10, wirelen := 10 }] ∧
     (∀ ci, tC4.currentIdx = some ci →
        ((appendToPacketList tC4 2 0 10).2.packetSequenceList.getD ci
            newPacketSequence).usecDelay
          = (((2 : Nat) : Int)
               - (lastPacketTs (tC4.packetSequenceList.getD ci
                   newPacketSequence)).sec) * 1000000
            + ((((0 / 1000 : Nat)) : Int)
               - (lastPacketTs (tC4.packetSequenceList.getD ci
                   newPacketSequence)).usec)) ∧
     (appendToPacketList tC4 2 0 10).2.packetCount = tC4.packetCount + 1) :=
  ⟨by decide, by decide, by decide,
   append_rollover_finalizes tC4 2 0 10 (by decide) (by decide) (by decide)
     (by
       intro ci h
       have h3 : (some 0 : Option Nat) = some ci := h
       have h4 : (0 : Nat) = ci := Option.some.inj h3
       subst h4
       decide)⟩

/-! ## Repeat-group finalization (C5) -/

/-- C5 (amended): when appendToPacketList reaches the group packet target
with the current sequence different from the group start sequence, the
start sequence takes repeatSize = listLen - groupStart (so its repeatSize
is at least 1 and at most listLen - groupStart), the post-group delay
moves from the start sequence (whose usecDelay becomes 0) to the current
sequence, and afterwards the repeat-group size target repeatSize_ is
reset to 0 and the current sequence is closed; the group packet counter
packetCount_ is not reset here (it holds the group size and is zeroed
again only by the next loopNextPacketSet). -/
theorem group_finalize_spec (t : Transmitter) (ci : Nat)
    (h1 : t.repeatSize > 0)
    (h2 : t.packetCount + 1 = t.repeatSize)
    (hci : t.currentIdx = some ci)
    (hne : ci ≠ t.repeatSequenceStart.toNat)
    (hs : t.repeatSequenceStart.toNat < t.packetSequenceList.length)
    (hcl : ci < t.packetSequenceList.length) :
    ((apFinalizeGroup t).packetSequenceList.getD t.repeatSequenceStart.toNat
        newPacketSequence).repeatSize
      = (t.packetSequenceList.length : Int) - t.repeatSequenceStart ∧
    1 ≤ ((apFinalizeGroup t).packetSequenceList.getD
          t.repeatSequenceStart.toNat newPacketSequence).repeatSize ∧
    ((apFinalizeGroup t).packetSequenceList.getD t.repeatSequenceStart.toNat
        newPacketSequence).repeatSize
      ≤ ((apFinalizeGroup t).packetSequenceList.length : Int)
          - t.repeatSequenceStart ∧
    ((apFinalizeGroup t).packetSequenceList.getD t.repeatSequenceStart.toNat
        newPacketSequence).usecDelay = 0 ∧
    ((apFinalizeGroup t).packetSequenceList.getD ci
        newPacketSequence).usecDelay
      = (t.packetSequenceList.getD t.repeatSequenceStart.toNat
          newPacketSequence).usecDelay ∧
    (apFinalizeGroup t).repeatSize = 0 ∧
    (apFinalizeGroup t).currentIdx = none ∧
    (apFinalizeGroup t).packetCount = t.packetCount + 1 ∧
    (apFinalizeGroup t).packetSequenceList.length
      = t.packetSequenceList.length := by
  obtain ⟨list, cur, rss, rsz, pc, rq, ld, stt⟩ := t
  simp only [Transmitter.currentIdx] at hci
  subst hci
  simp only [Transmitter.repeatSize, Transmitter.packetCount,
    Transmitter.repeatSequenceStart, Transmitter.packetSequenceList] at *
  have hne2 : ¬ ((some ci : Option Nat) = some rss.toNat) := by
    intro hco
    exact hne (Option.some.inj hco)
  have hstep : apFinalizeGroup
      { packetSequenceList := list, currentIdx := some ci,
        repeatSequenceStart := rss, repeatSize := rsz, packetCount := pc,
        returnToQIdx := rq, loopDelay := ld, state := stt }
      = { packetSequenceList :=
            ((list.set ci
                { list.getD ci newPacketSequence with
                  usecDelay := (list.getD rss.toNat newPacketSequence).usecDelay }).set
              rss.toNat
              { ((list.set ci
                    { list.getD ci newPacketSequence with
                      usecDelay := (list.getD rss.toNat
                        newPacketSequence).usecDelay }).getD
                  rss.toNat newPacketSequence) with
                usecDelay := 0,
                repeatSize := (list.length : Int) - rss }),
          currentIdx := none, repeatSequenceStart := rss, repeatSize := 0,
          packetCount := pc + 1, returnToQIdx := rq, loopDelay := ld,
          state := stt } := by
    simp only [apFinalizeGroup]
    rw [if_pos ⟨h1, h2⟩, if_pos hne2]
  rw [hstep]
  have hs2 : rss.toNat <
      (list.set ci
        { list.getD ci newPacketSequence with
          usecDelay := (list.getD rss.toNat newPacketSequence).usecDelay }).length := by
    simpa using hs
  have hgetS := getD_set_self
    (list.set ci
      { list.getD ci newPacketSequence with
        usecDelay := (list.getD rss.toNat newPacketSequence).usecDelay })
    rss.toNat
    { ((list.set ci
          { list.getD ci newPacketSequence with
            usecDelay := (list.getD rss.toNat newPacketSequence).usecDelay }).getD
        rss.toNat newPacketSequence) with
      usecDelay := 0,
      repeatSize := (list.length : Int) - rss } hs2
  have hneq : rss.toNat ≠ ci := fun hco => hne hco.symm
  have hgetC1 := getD_set_ne
    (list.set ci
      { list.getD ci newPacketSequence with
        usecDelay := (list.getD rss.toNat newPacketSequence).usecDelay })
    rss.toNat ci
    { ((list.set ci
          { list.getD ci newPacketSequence with
            usecDelay := (list.getD rss.toNat newPacketSequence).usecDelay }).getD
        rss.toNat newPacketSequence) with
      usecDelay := 0,
      repeatSize := (list.length : Int) - rss } hneq
  have hgetC2 := getD_set_self list ci
    { list.getD ci newPacketSequence with
      usecDelay := (list.getD rss.toNat newPacketSequence).usecDelay } hcl
  have hrssle : rss ≤ (rss.toNat : Int) := Int.self_le_toNat rss
  refine ⟨?_, ?_, ?_, ?_, ?_, rfl, rfl, rfl, by simp⟩
  · rw [hgetS]
  · rw [hgetS]
    show (1 : Int) ≤ (list.length : Int) - rss
    omega
  · rw [hgetS]
    simp only [List.length_set, List.length_append]
    simp
  · rw [hgetS]
  · rw [hgetC1, hgetC2]

theorem group_finalize_spec_witness :
    tC5.repeatSize > 0 ∧ tC5.packetCount + 1 = tC5.repeatSize ∧
    tC5.currentIdx = some 1 ∧
    (1 : Nat) ≠ tC5.repeatSequenceStart.toNat ∧
    tC5.repeatSequenceStart.toNat < tC5.packetSequenceList.length ∧
    1 < tC5.packetSequenceList.length ∧
    (((apFinalizeGroup tC5).packetSequenceList.getD tC5.repeatSequenceStart.toNat
        newPacketSequence).repeatSize
      = (tC5.packetSequenceList.length : Int) - tC5.repeatSequenceStart ∧
    1 ≤ ((apFinalizeGroup tC5).packetSequenceList.getD
          tC5.repeatSequenceStart.toNat newPacketSequence).repeatSize ∧
    ((apFinalizeGroup tC5).packetSequenceList.getD tC5.repeatSequenceStart.toNat
        newPacketSequence).repeatSize
      ≤ ((apFinalizeGroup tC5).packetSequenceList.length : Int)
          - tC5.repeatSequenceStart ∧
    ((apFinalizeGroup tC5).packetSequenceList.getD tC5.repeatSequenceStart.toNat
        newPacketSequence).usecDelay = 0 ∧
    ((apFinalizeGroup tC5).packetSequenceList.getD 1
        newPacketSequence).usecDelay
      = (tC5.packetSequenceList.getD tC5.repeatSequenceStart.toNat
          newPacketSequence).usecDelay ∧
    (apFinalizeGroup tC5).repeatSize = 0 ∧
    (apFinalizeGroup tC5).currentIdx = none ∧
    (apFinalizeGroup tC5).packetCount = tC5.packetCount + 1 ∧
    (apFinalizeGroup tC5).packetSequenceList.length
      = tC5.packetSequenceList.length) :=
  ⟨by decide, by decide, by decide, by decide, by decide, by decide,
   group_finalize_spec tC5 1 (by decide) (by decide) (by decide) (by decide)
     (by decide) (by decide)⟩

/-- C5 counterexample: an appendToPacketList call that reaches the group
packet target and takes the delay-moving branch (the start sequence ends
with repeatSize 2, the group-size target drops to 0 and the current
sequence closes) leaves packetCount at 2 — the group packet counter is
not reset to zero by group finalization, contrary to the claim. -/
theorem group_finalize_packetCount_not_reset :
    ((appendToPacketList tC5 1 0 7).2.packetSequenceList.getD 0
        newPacketSequence).repeatSize = 2 ∧
    (appendToPacketList tC5 1 0 7).2.repeatSize = 0 ∧
    (appendToPacketList tC5 1 0 7).2.currentIdx = none ∧
    (appendToPacketList tC5 1 0 7).2.packetCount = 2 ∧
    ¬ ((appendToPacketList tC5 1 0 7).2.packetCount = 0) := by
  decide

/-! ## Witnesses for the replay theorems -/

theorem replay_group_step_witness :
    0 < ([s0, s1] : List PacketSequence).length ∧
    1 ≤ (([s0, s1] : List PacketSequence).getD 0 newPacketSequence).repeatSize.toNat ∧
    runJ [s0, s1] oTriv 0
        (([s0, s1] : List PacketSequence).getD 0 newPacketSequence).repeatSize.toNat
        (([s0, s1] : List PacketSequence).getD 0 newPacketSequence).repeatCount.toNat
        stR
      = (true, stC1) ∧
    (runFrom [s0, s1] (-1) 0 oTriv (0 + 2) false 0 stR
       = runFrom [s0, s1] (-1) 0 oTriv 0 false
           (0 + (([s0, s1] : List PacketSequence).getD 0
              newPacketSequence).repeatSize.toNat) stC1 ∧
     ∃ Δ, stC1.events = stR.events ++ Δ ∧
       JTrace [s0, s1] 0
         (([s0, s1] : List PacketSequence).getD 0 newPacketSequence).repeatSize.toNat
         (([s0, s1] : List PacketSequence).getD 0 newPacketSequence).repeatCount.toNat
         Δ ∧
       xmitIdxs Δ
         = List.join (List.replicate
             (([s0, s1] : List PacketSequence).getD 0
                newPacketSequence).repeatCount.toNat
             ((List.range (([s0, s1] : List PacketSequence).getD 0
                newPacketSequence).repeatSize.toNat).map (fun k => 0 + k))) ∧
       (xmitIdxs Δ).length
         = (([s0, s1] : List PacketSequence).getD 0
              newPacketSequence).repeatSize.toNat
             * (([s0, s1] : List PacketSequence).getD 0
                  newPacketSequence).repeatCount.toNat) :=
  ⟨by decide, by decide, by decide,
   replay_group_step 0 0 [s0, s1] (-1) 0 oTriv stR stC1 (by decide) (by decide)
     (by decide)⟩

theorem replay_error_aborts_witness :
    0 < ([sP, sP] : List PacketSequence).length ∧
    runJ [sP, sP] oStop 0
        (([sP, sP] : List PacketSequence).getD 0 newPacketSequence).repeatSize.toNat
        (([sP, sP] : List PacketSequence).getD 0 newPacketSequence).repeatCount.toNat
        stR
      = (false, stC7) ∧
    (runFrom [sP, sP] (-1) 0 oStop (0 + 2) false 0 stR
       = { stC7 with state := TxState.Finished } ∧
     stC7.stop = false ∧
     ({ stC7 with state := TxState.Finished } : RunSt).state = TxState.Finished ∧
     stIsRunning { stC7 with state := TxState.Finished } = false ∧
     ({ stC7 with state := TxState.Finished } : RunSt).events = stC7.events) :=
  ⟨by decide, by decide,
   replay_error_aborts 0 0 [sP, sP] (-1) 0 oStop stR stC7 (by decide) (by decide)⟩

end PcapPort
